import Mathlib

/-!
Shallow embedding of the Pip-Boy 3000 Mk V media converter
(src/main.py, src/lib/common/ffmpeg_tools.py, src/lib/music/music_tab.py,
src/lib/video/video_tab.py), together with theorems settling the
specification claims about queueing, argument construction, the
conversion worker loop, preview debouncing and custom-size sanitization.
-/

namespace PipMedia

/-! ## Python string primitives -/

/-- Whitespace characters recognised by Python's default str.strip. -/
def pyIsSpace (c : Char) : Bool :=
  c = ' ' || c = '\t' || c = '\n' || c = '\x0d' || c = '\x0b' || c = '\x0c'

/-- Python str.strip with no argument: drop surrounding whitespace. -/
def pyStrip (s : String) : String :=
  String.mk (((s.toList.dropWhile pyIsSpace).reverse.dropWhile pyIsSpace).reverse)

/-- Python str.lower restricted to the ASCII strings used by the app. -/
def pyLower (s : String) : String :=
  String.mk (s.toList.map Char.toLower)

/-- Does the second list start with the first one? -/
def startsWithChars : List Char → List Char → Bool
  | [], _ => true
  | _ :: _, [] => false
  | p :: ps, c :: cs => p = c && startsWithChars ps cs

/-- Contiguous-substring test on character lists. -/
def containsChars (pat : List Char) : List Char → Bool
  | [] => pat.isEmpty
  | c :: cs => startsWithChars pat (c :: cs) || containsChars pat cs

/-- Python's substring operator: pat in s. -/
def pyIn (pat s : String) : Bool :=
  containsChars pat.toList s.toList

/-! ## Path model (pathlib.Path as its list of components) -/

/-- A filesystem path, as pathlib sees it: a list of name components. -/
structure PyPath where
  comps : List String
  deriving DecidableEq, Repr

/-- str(path): components joined by the separator. -/
def pathStr (p : PyPath) : String :=
  String.intercalate "/" p.comps

/-- Path.name: the final component, or the empty string. -/
def nameOf (p : PyPath) : String :=
  (p.comps.getLast?).getD ""

/-- Index of the last occurrence of a character. -/
def lastIdxOf (c : Char) : List Char → Option Nat
  | [] => none
  | a :: rest =>
    match lastIdxOf c rest with
    | some i => some (i + 1)
    | none => if a = c then some 0 else none

/-- Path.suffix: the final dot-led extension of the name, following
pathlib: the last dot must be neither the first nor the last character. -/
def suffixOf (p : PyPath) : String :=
  let n := (nameOf p).toList
  match lastIdxOf '.' n with
  | some i => if 0 < i ∧ i + 1 < n.length then String.mk (n.drop i) else ""
  | none => ""

/-- Path.stem: the name with the suffix removed. -/
def stemOf (p : PyPath) : String :=
  let n := (nameOf p).toList
  match lastIdxOf '.' n with
  | some i => if 0 < i ∧ i + 1 < n.length then String.mk (n.take i) else String.mk n
  | none => String.mk n

/-! ## Recognised extensions (music_tab.AUDIO_EXTENSIONS, video_tab.VIDEO_EXTENSIONS) -/

def audioExtensions : List String :=
  [".mp3", ".m4a", ".aac", ".wav", ".flac", ".ogg", ".opus", ".wma",
   ".aif", ".aiff", ".alac", ".ac3"]

def videoExtensions : List String :=
  [".mp4", ".mov", ".m4v", ".avi", ".mkv", ".webm", ".wmv", ".flv",
   ".mts", ".m2ts", ".ts", ".3gp"]

/-- music_tab.is_audio: suffix lowercased is a recognised audio extension. -/
def isAudio (p : PyPath) : Bool :=
  audioExtensions.contains (pyLower (suffixOf p))

/-- video_tab.add_files extension test: suffix lowercased in VIDEO_EXT_SET. -/
def isVideo (p : PyPath) : Bool :=
  videoExtensions.contains (pyLower (suffixOf p))

/-! ## FFmpegProcess.run (ffmpeg_tools.py lines 98-115)

The subprocess's observable behaviour is a stream of events: stderr
lines in the order read, ended either by normal termination with an
exit code (proc.wait) or by an exception carrying a message. -/

inductive RunEvent where
  | outLine (s : String)
  | finished (code : Int)
  | raised (msg : String)
  deriving DecidableEq, Repr

/-- FFmpegProcess.run: the for-loop over proc.stderr puts each line
stripped onto the log queue; proc.wait gives the return value; an
exception puts one ERROR line and returns 1.  Result: (lines put onto
log_q in order, returned exit code). -/
def runFF : List RunEvent → List String × Int
  | [] => ([], 0)
  | .outLine s :: rest =>
    let r := runFF rest
    (pyStrip s :: r.1, r.2)
  | .finished code :: _ => ([], code)
  | .raised msg :: _ => (["[ERROR] " ++ msg], 1)

/-- A subprocess that terminates normally after emitting the lines. -/
def normalRun (lines : List String) (code : Int) : List RunEvent :=
  lines.map RunEvent.outLine ++ [RunEvent.finished code]

/-- A launch or streaming attempt that raises after emitting some lines. -/
def raisedRun (lines : List String) (msg : String) : List RunEvent :=
  lines.map RunEvent.outLine ++ [RunEvent.raised msg]

/-! ## Python int() parsing (for the custom size entries) -/

/-- A valid Python integer digit run: digits with optional single
underscores strictly between digits. -/
def validDigitRun (cs : List Char) : Bool :=
  (match cs with
   | [] => false
   | c :: _ => c.isDigit)
  && (match cs.getLast? with
      | none => false
      | some c => c.isDigit)
  && cs.all (fun c => c.isDigit || c = '_')
  && (cs.zip cs.tail).all (fun q => !(q.1 = '_' && q.2 = '_'))

/-- Numeric value of a digit run, skipping underscores. -/
def digitRunVal (cs : List Char) : Nat :=
  (cs.filter Char.isDigit).foldl (fun a c => a * 10 + (c.toNat - '0'.toNat)) 0

/-- Python int(s) for a stripped string: optional sign then a digit run;
None models a ValueError. -/
def pyInt? (s : String) : Option Int :=
  let cs := (pyStrip s).toList
  match cs with
  | '+' :: rest => if validDigitRun rest then some (Int.ofNat (digitRunVal rest)) else none
  | '-' :: rest => if validDigitRun rest then some (-(Int.ofNat (digitRunVal rest))) else none
  | rest => if validDigitRun rest then some (Int.ofNat (digitRunVal rest)) else none

/-- video_tab default target size. -/
def targetW : Int := 340

def targetH : Int := 210

def targetFps : Nat := 12

/-- VideoTab._get_custom_size._parse: int(v.strip()); nonpositive raises
into the fallback; odd values are decremented; a zero result falls back. -/
def getParse (v : String) (fallback : Int) : Int :=
  match pyInt? v with
  | none => fallback
  | some n =>
    if n ≤ 0 then fallback
    else
      let m := if n % 2 = 1 then n - 1 else n
      if m ≤ 0 then fallback else m

/-- VideoTab._peek_custom_size._parse: same parse without mutating the
entry variables. -/
def peekParse (v : String) (fallback : Int) : Int :=
  match pyInt? v with
  | none => fallback
  | some n =>
    if n ≤ 0 then fallback
    else
      let m := if n % 2 = 1 then n - 1 else n
      if m > 0 then m else fallback

/-- VideoTab._get_custom_size: parses both fields, writes the sanitized
values back into the entry variables, and returns the pair. -/
def getCustomSize (wv hv : String) : (Int × Int) × (String × String) :=
  let w := getParse wv targetW
  let h := getParse hv targetH
  ((w, h), (toString w, toString h))

/-- VideoTab._peek_custom_size: parses both fields, touching nothing. -/
def peekCustomSize (wv hv : String) : Int × Int :=
  (peekParse wv targetW, peekParse hv targetH)

/-! ## VideoTab._vf_core / _vf_convert / _vf_preview (video_tab.py 496-524) -/

/-- VideoTab._vf_core: build the scaling filter-graph core from the
(lowercased) mode and the custom width/height entry strings. -/
def vfCore (mode wv hv : String) : String :=
  let m := pyLower mode
  if m = "custom" then
    let w := getParse wv targetW
    let h := getParse hv targetH
    "scale=" ++ toString w ++ ":" ++ toString h ++ ":flags=lanczos,setsar=1"
  else if pyIn "stretch" m then
    "scale=" ++ toString targetW ++ ":" ++ toString targetH ++ ":flags=lanczos,setsar=1"
  else if pyIn "cover" m || pyIn "fill" m then
    let s := "max(" ++ toString targetW ++ "/iw\\," ++ toString targetH ++ "/ih)"
    let we := "trunc(iw*" ++ s ++ "/2)*2"
    let he := "trunc(ih*" ++ s ++ "/2)*2"
    "scale=" ++ we ++ ":" ++ he ++ ":flags=lanczos,setsar=1,crop=" ++
      toString targetW ++ ":" ++ toString targetH
  else
    let s := "min(" ++ toString targetW ++ "/iw\\," ++ toString targetH ++ "/ih)"
    let we := "trunc(iw*" ++ s ++ "/2)*2"
    let he := "trunc(ih*" ++ s ++ "/2)*2"
    "scale=" ++ we ++ ":" ++ he ++ ":flags=lanczos,setsar=1," ++
      "pad=" ++ toString targetW ++ ":" ++ toString targetH ++ ":(ow-iw)/2:(oh-ih)/2"

/-- VideoTab._vf_convert: the conversion filter graph. -/
def vfConvert (mode wv hv : String) : String :=
  vfCore mode wv hv ++ ",fps=" ++ toString targetFps ++ ",format=pal8"

/-- VideoTab._vf_preview: the preview filter graph. -/
def vfPreview (mode wv hv : String) : String :=
  vfCore mode wv hv ++ ",format=rgb24"

/-! ## MusicTab._af (music_tab.py 360-367)

The volume slider value is a binary double; it is modelled as a
rational (no reachable double sits on a formatting tie or exactly on
the literal 0.05, so the rational model decides the same branches). -/

/-- Python percent .1f formatting of the gain value: scale by ten,
round to the nearest integer, and print with one decimal digit. -/
def fmtDb (db : ℚ) : String :=
  let n : ℤ := round (10 * db)
  let a := n.natAbs
  (if n < 0 then "-" else "") ++ toString (a / 10) ++ "." ++ toString (a % 10)

/-- MusicTab._af: a failed float() read counts as 0.0; small gains give
no argument, others give the -af volume filter pair. -/
def afArgs (dbv : Option ℚ) : List String :=
  let db := dbv.getD 0
  if |db| < 1 / 20 then []
  else ["-af", "volume=" ++ fmtDb db ++ "dB"]

/-! ## Conversion commands and the worker loop (music_tab.py 740-799,
video_tab.py 573-651) -/

def audioOutRate : String := "16000"

def audioOutChannels : String := "1"

def audioOutCodec : String := "pcm_s16le"

def audioOutSampleFmt : String := "s16"

/-- Destination path string Path(out_dir) / name. -/
def joinOut (outDir name : String) : String :=
  outDir ++ "/" ++ name

/-- The ffmpeg argument list built per file in MusicTab._convert_files. -/
def musicCmd (ffmpeg : String) (af : List String) (outDir : String) (src : PyPath) :
    List String :=
  [ffmpeg, "-hide_banner", "-loglevel", "error", "-stats", "-y",
   "-i", pathStr src,
   "-ac", audioOutChannels, "-ar", audioOutRate,
   "-sample_fmt", audioOutSampleFmt, "-c:a", audioOutCodec]
  ++ af ++
  ["-f", "wav", joinOut outDir (stemOf src ++ ".wav")]

def targetARate : String := "16000"

def targetAChannels : String := "1"

/-- The ffmpeg argument list built per file in VideoTab.start_convert_all. -/
def videoCmd (ffmpeg vf outDir : String) (src : PyPath) : List String :=
  [ffmpeg, "-hide_banner", "-loglevel", "error", "-stats", "-y",
   "-i", pathStr src,
   "-vf", vf, "-vsync", "cfr", "-r", toString targetFps,
   "-c:v", "msrle", "-pix_fmt", "pal8",
   "-ac", targetAChannels, "-ar", targetARate, "-c:a", "pcm_s16le",
   "-max_interleave_delta", "0", "-use_odml", "0",
   "-f", "avi", joinOut outDir (nameOf src ++ ".avi")]

def okLine : String := "[OK] Convert complete."

def logConverting (srcName dstName : String) : String :=
  "[*] Converting " ++ (srcName ++ (" -> " ++ dstName))

def logFailed (srcPath : String) : String :=
  "[ERROR] Conversion failed: " ++ srcPath

/-- Observable outcome of a conversion worker: the ffmpeg invocations
made (in order), the lines put onto the log queue, and the ok flag. -/
structure WorkerOut where
  cmds : List (List String)
  logs : List String
  ok : Bool
  deriving Repr

/-- The worker loop shared by both tabs: one ffmpeg invocation per file
in list order, stopping (ok := false) at the first nonzero exit code.
The run argument gives each invocation's exit code. -/
def convertLoop (run : List String → Int) (mkCmd : PyPath → List String)
    (dstName : PyPath → String) : List PyPath → WorkerOut
  | [] => ⟨[], [], true⟩
  | src :: rest =>
    let cmd := mkCmd src
    if run cmd = 0 then
      let r := convertLoop run mkCmd dstName rest
      ⟨cmd :: r.cmds, logConverting (nameOf src) (dstName src) :: r.logs, r.ok⟩
    else
      ⟨[cmd], [logConverting (nameOf src) (dstName src), logFailed (pathStr src)], false⟩

/-- Worker plus the end step scheduled on the UI thread, which logs
okLine exactly when the loop finished with ok. -/
def convertAll (run : List String → Int) (mkCmd : PyPath → List String)
    (dstName : PyPath → String) (files : List PyPath) : WorkerOut :=
  let r := convertLoop run mkCmd dstName files
  { r with logs := r.logs ++ (if r.ok then [okLine] else []) }

/-- MusicTab._convert_files on a queued file list. -/
def musicConvert (run : List String → Int) (ffmpeg : String) (af : List String)
    (outDir : String) (files : List PyPath) : WorkerOut :=
  convertAll run (musicCmd ffmpeg af outDir) (fun s => stemOf s ++ ".wav") files

/-- VideoTab.start_convert_all's worker on the queued file list. -/
def videoConvert (run : List String → Int) (ffmpeg vf outDir : String)
    (files : List PyPath) : WorkerOut :=
  convertAll run (videoCmd ffmpeg vf outDir) (fun s => nameOf s ++ ".avi") files

/-! ## File-queue state and its operations (both tabs)

Both tabs keep a files list plus a _known_paths set of normalized
absolute path strings.  Normalization (os.path.abspath + normcase)
depends on the OS and working directory, so it is a parameter. -/

/-- The per-tab queue state: the files list and _known_paths. -/
structure TabState where
  files : List PyPath
  known : Finset String
  deriving DecidableEq

/-- The picked-list loop of MusicTab.add_files: keep the chosen paths
with a recognised extension whose normalized path is not yet known,
adding keys as they are picked. -/
def pickFiles (norm : PyPath → String) (extOk : PyPath → Bool) (known : Finset String) :
    List PyPath → List PyPath × Finset String
  | [] => ([], known)
  | p :: rest =>
    if extOk p then
      if norm p ∈ known then pickFiles norm extOk known rest
      else
        let r := pickFiles norm extOk (insert (norm p) known) rest
        (p :: r.1, r.2)
    else pickFiles norm extOk known rest

/-- MusicTab.add_files: build picked, then store.extend(picked). -/
def musicAddFiles (norm : PyPath → String) (extOk : PyPath → Bool) (s : TabState)
    (chosen : List PyPath) : TabState :=
  let r := pickFiles norm extOk s.known chosen
  ⟨s.files ++ r.1, r.2⟩

/-- VideoTab.add_files: the same filter, appending inline. -/
def videoAddFiles (norm : PyPath → String) (extOk : PyPath → Bool) (s : TabState) :
    List PyPath → TabState
  | [] => s
  | p :: rest =>
    if extOk p then
      if norm p ∈ s.known then videoAddFiles norm extOk s rest
      else videoAddFiles norm extOk ⟨s.files ++ [p], insert (norm p) s.known⟩ rest
    else videoAddFiles norm extOk s rest

/-- The claim's reading of add_files, written from the spec sentence:
append exactly the chosen paths, in order, with a recognised extension
and a normalized path not already among those of the queue. -/
def claimAddSpec (norm : PyPath → String) (extOk : PyPath → Bool) :
    List PyPath → List PyPath → List PyPath
  | queue, [] => queue
  | queue, p :: rest =>
    if extOk p ∧ norm p ∉ queue.map norm then claimAddSpec norm extOk (queue ++ [p]) rest
    else claimAddSpec norm extOk queue rest

/-- One iteration of remove_selected: discard the index's key and pop
the index (indices are visited in descending order). -/
def removeStep (norm : PyPath → String) (s : TabState) (idx : Nat) : TabState :=
  if h : idx < s.files.length then
    ⟨s.files.eraseIdx idx, s.known.erase (norm (s.files.get ⟨idx, h⟩))⟩
  else s

/-- remove_selected over an ascending selection list. -/
def removeSelected (norm : PyPath → String) (s : TabState) (sel : List Nat) : TabState :=
  sel.reverse.foldl (removeStep norm) s

/-- clear_list: store.clear() and _known_paths.clear(). -/
def clearList (_s : TabState) : TabState :=
  ⟨[], ∅⟩

/-- The parallel assignment store[i], store[j] = store[j], store[i]. -/
def listSwap (l : List PyPath) (i j : Nat) : List PyPath :=
  if h : i < l.length ∧ j < l.length then
    (l.set i (l.get ⟨j, h.2⟩)).set j (l.get ⟨i, h.1⟩)
  else l

/-- move_selected on the files list: swap each selected index with its
neighbour, ascending when moving up (j checked nonnegative), descending
when moving down (j checked below the length). -/
def moveFiles (sel : List Nat) (delta : Int) (l : List PyPath) : List PyPath :=
  if delta < 0 then
    sel.foldl
      (fun acc (i : Nat) =>
        if 0 ≤ (i : Int) + delta then listSwap acc i ((i : Int) + delta).toNat else acc) l
  else
    sel.reverse.foldl
      (fun acc (i : Nat) =>
        if (i : Int) + delta < acc.length then listSwap acc i ((i : Int) + delta).toNat
        else acc) l

/-- move_selected leaves _known_paths untouched. -/
def moveSelected (s : TabState) (sel : List Nat) (delta : Int) : TabState :=
  ⟨moveFiles sel delta s.files, s.known⟩

/-- The de-duplication invariant: _known_paths is exactly the set of
normalized paths of the files list, and those keys are pairwise
distinct. -/
def tabInv (norm : PyPath → String) (s : TabState) : Prop :=
  s.known = (s.files.map norm).toFinset ∧ (s.files.map norm).Nodup

/-! ## Preview scheduling (video_tab.py 260-349)

The Tk timer queue is modelled explicitly: after() enqueues a timer
with an id, a delay and the captured build target; after_cancel removes
the stored id; a timer firing starts one background build.  A finished
build reports back on the UI thread. -/

inductive CanvasView where
  | text (msg : String)
  | image (p : PyPath)
  deriving DecidableEq, Repr

structure PreviewState where
  mode : String
  timers : List (Nat × Nat × PyPath)
  afterId : Option Nat
  nextId : Nat
  target : Option PyPath
  started : List PyPath
  canvas : CanvasView
  deriving DecidableEq, Repr

/-- VideoTab._schedule_preview_update: in custom mode do nothing; with
no valid selection show the no-preview text; otherwise record the
target, cancel the pending timer, and schedule the build after 250ms
when debouncing (0ms otherwise). -/
def schedulePreview (s : PreviewState) (sel : Option PyPath) (debounce : Bool) :
    PreviewState :=
  if s.mode = "custom" then s
  else
    match sel with
    | none => { s with canvas := CanvasView.text "No preview" }
    | some f =>
      let delay := if debounce then 250 else 0
      let remaining :=
        match s.afterId with
        | some tid => s.timers.filter (fun t => t.1 ≠ tid)
        | none => s.timers
      { s with
        target := some f
        timers := remaining ++ [(s.nextId, delay, f)]
        afterId := some s.nextId
        nextId := s.nextId + 1 }

/-- A Tk timer fires: its entry leaves the queue, the go closure spawns
the build thread for the captured target and clears the stored id. -/
def fireTimer (s : PreviewState) (tid : Nat) : PreviewState :=
  match s.timers.find? (fun t => t.1 = tid) with
  | some t =>
    { s with
      timers := s.timers.filter (fun u => u.1 ≠ tid)
      started := s.started ++ [t.2.2]
      afterId := none }
  | none => s

/-- VideoTab._build_preview finishing for src: custom mode returns
early; a failed build shows the unavailable text; a successful build is
applied to the canvas only when src is still the recorded target. -/
def buildFinish (s : PreviewState) (src : PyPath) (success : Bool) : PreviewState :=
  if s.mode = "custom" then s
  else if success = false then { s with canvas := CanvasView.text "(Preview unavailable)" }
  else if s.target = some src then { s with canvas := CanvasView.image src }
  else s

/-- Scheduling invariant: every pending timer carries the stored after
id, and at most one build is pending. -/
def previewInv (s : PreviewState) : Prop :=
  (∀ t ∈ s.timers, s.afterId = some t.1) ∧ s.timers.length ≤ 1

/-! ## Queue producer/consumer sites (main.py and both tabs)

The static inventory of log-queue operations: which function touches a
tab's queue, whether it puts or gets, and on which thread it runs
(Tk callbacks and after-callbacks on the UI thread; conversion worker
and preview build threads in the background). -/

inductive Thr where
  | ui
  | convWorker
  | prevWorker
  deriving DecidableEq, Repr

structure LogSite where
  fn : String
  isPut : Bool
  thr : Thr
  deriving DecidableEq, Repr

/-- Operations on the music tab's log queue. -/
def musicLogSites : List LogSite :=
  [⟨"PipMediaApp.__init__", true, Thr.ui⟩,
   ⟨"PipMediaApp._validate_tools", true, Thr.ui⟩,
   ⟨"MusicTab.start_preview", true, Thr.ui⟩,
   ⟨"MusicTab._open_output_dir", true, Thr.ui⟩,
   ⟨"MusicTab.add_files", true, Thr.ui⟩,
   ⟨"MusicTab._end_convert", true, Thr.ui⟩,
   ⟨"MusicTab.start_convert_all", true, Thr.ui⟩,
   ⟨"MusicTab._convert_files", true, Thr.ui⟩,
   ⟨"MusicTab._convert_files.worker", true, Thr.convWorker⟩,
   ⟨"FFmpegProcess.run", true, Thr.convWorker⟩,
   ⟨"MusicTab._drain_log", false, Thr.ui⟩]

/-- Operations on the video tab's log queue. -/
def videoLogSites : List LogSite :=
  [⟨"PipMediaApp.__init__", true, Thr.ui⟩,
   ⟨"PipMediaApp._validate_tools", true, Thr.ui⟩,
   ⟨"VideoTab.add_files", true, Thr.ui⟩,
   ⟨"VideoTab.start_convert_all", true, Thr.ui⟩,
   ⟨"VideoTab.start_convert_all.worker", true, Thr.convWorker⟩,
   ⟨"VideoTab.start_convert_all.worker.end", true, Thr.ui⟩,
   ⟨"VideoTab._build_preview", true, Thr.prevWorker⟩,
   ⟨"FFmpegProcess.run", true, Thr.convWorker⟩,
   ⟨"FFmpegProcess.run.from_build_preview", true, Thr.prevWorker⟩,
   ⟨"VideoTab._drain_log", false, Thr.ui⟩]

/-! ## Helper lemmas -/

lemma ne_of_secondChar {s t : String} (h : s.data[1]? ≠ t.data[1]?) : s ≠ t :=
  fun he => h (he ▸ rfl)

lemma logConverting_ne_okLine (x y : String) : logConverting x y ≠ okLine := by
  apply ne_of_secondChar
  show (("[*] Converting " : String) ++ (x ++ (" -> " ++ y))).data[1]? ≠ _
  rw [String.data_append, List.getElem?_append_left (by decide)]
  decide

lemma logFailed_ne_okLine (x : String) : logFailed x ≠ okLine := by
  apply ne_of_secondChar
  show (("[ERROR] Conversion failed: " : String) ++ x).data[1]? ≠ _
  rw [String.data_append, List.getElem?_append_left (by decide)]
  decide

/-- runFF on a normally terminating stream: the stripped lines, then
the wait status. -/
lemma runFF_normal (lines : List String) (code : Int) :
    runFF (normalRun lines code) = (lines.map pyStrip, code) := by
  induction lines with
  | nil => rfl
  | cons a rest ih =>
    have step : runFF (normalRun (a :: rest) code) =
        (pyStrip a :: (runFF (normalRun rest code)).1, (runFF (normalRun rest code)).2) := rfl
    rw [step, ih]
    rfl

/-- runFF on a stream that raises: the stripped lines read so far, one
ERROR line, and exit status 1. -/
lemma runFF_raised (lines : List String) (msg : String) :
    runFF (raisedRun lines msg) = (lines.map pyStrip ++ ["[ERROR] " ++ msg], 1) := by
  induction lines with
  | nil => rfl
  | cons a rest ih =>
    have step : runFF (raisedRun (a :: rest) msg) =
        (pyStrip a :: (runFF (raisedRun rest msg)).1, (runFF (raisedRun rest msg)).2) := rfl
    rw [step, ih]
    rfl

lemma convertLoop_cmds (run : List String → Int) (mk : PyPath → List String)
    (dn : PyPath → String) (fs : List PyPath) :
    (convertLoop run mk dn fs).cmds =
      ((fs.takeWhile fun s => run (mk s) == 0) ++
        (fs.dropWhile fun s => run (mk s) == 0).take 1).map mk := by
  induction fs with
  | nil => rfl
  | cons f rest ih =>
    by_cases h : run (mk f) = 0
    · simp [convertLoop, h, List.takeWhile_cons, List.dropWhile_cons, ih]
    · simp [convertLoop, h, List.takeWhile_cons, List.dropWhile_cons]

lemma convertLoop_ok (run : List String → Int) (mk : PyPath → List String)
    (dn : PyPath → String) (fs : List PyPath) :
    (convertLoop run mk dn fs).ok = fs.all fun s => run (mk s) == 0 := by
  induction fs with
  | nil => rfl
  | cons f rest ih =>
    by_cases h : run (mk f) = 0
    · simp [convertLoop, h, ih]
    · simp [convertLoop, h]

lemma okLine_notin_loop (run : List String → Int) (mk : PyPath → List String)
    (dn : PyPath → String) (fs : List PyPath) :
    okLine ∉ (convertLoop run mk dn fs).logs := by
  induction fs with
  | nil => simp [convertLoop]
  | cons f rest ih =>
    by_cases h : run (mk f) = 0
    · simp only [convertLoop, if_pos h, List.mem_cons]
      rintro (he | he)
      · exact logConverting_ne_okLine _ _ he.symm
      · exact ih he
    · simp only [convertLoop, if_neg h, List.mem_cons]
      rintro (he | he | he)
      · exact logConverting_ne_okLine _ _ he.symm
      · exact logFailed_ne_okLine _ he.symm
      · exact (List.not_mem_nil _ he)

lemma convertAll_cmds (run : List String → Int) (mk : PyPath → List String)
    (dn : PyPath → String) (fs : List PyPath) :
    (convertAll run mk dn fs).cmds =
      ((fs.takeWhile fun s => run (mk s) == 0) ++
        (fs.dropWhile fun s => run (mk s) == 0).take 1).map mk :=
  convertLoop_cmds run mk dn fs

lemma convertAll_fail (run : List String → Int) (mk : PyPath → List String)
    (dn : PyPath → String) (fs : List PyPath)
    (hall : fs.all (fun s => run (mk s) == 0) = false) :
    ∃ g ∈ fs, run (mk g) ≠ 0 ∧ mk g ∈ (convertAll run mk dn fs).cmds ∧
      logFailed (pathStr g) ∈ (convertAll run mk dn fs).logs := by
  induction fs with
  | nil => simp at hall
  | cons f rest ih =>
    by_cases h : run (mk f) = 0
    · simp only [List.all_cons, h, beq_self_eq_true, Bool.true_and] at hall
      obtain ⟨g, hg, hgr, hgc, hgl⟩ := ih hall
      refine ⟨g, List.mem_cons_of_mem _ hg, hgr, ?_, ?_⟩
      · simp only [convertAll, convertLoop, if_pos h] at hgc ⊢
        exact List.mem_cons_of_mem _ hgc
      · simp only [convertAll, convertLoop, if_pos h] at hgl ⊢
        rw [List.cons_append]
        exact List.mem_cons_of_mem _ hgl
    · refine ⟨f, List.mem_cons_self _ _, h, ?_, ?_⟩
      · simp [convertAll, convertLoop, if_neg h]
      · simp [convertAll, convertLoop, if_neg h]

lemma convertAll_ok_iff (run : List String → Int) (mk : PyPath → List String)
    (dn : PyPath → String) (fs : List PyPath) :
    okLine ∈ (convertAll run mk dn fs).logs ↔
      ∀ c ∈ (convertAll run mk dn fs).cmds, run c = 0 := by
  have hmem : okLine ∈ (convertAll run mk dn fs).logs ↔
      (convertLoop run mk dn fs).ok = true := by
    simp only [convertAll, List.mem_append]
    constructor
    · rintro (hl | hl)
      · exact absurd hl (okLine_notin_loop run mk dn fs)
      · by_cases hok : (convertLoop run mk dn fs).ok
        · exact hok
        · simp [hok] at hl
    · intro hok
      simp [hok]
  rw [hmem, convertLoop_ok]
  constructor
  · intro hall c hc
    rw [convertAll_cmds] at hc
    have htw : fs.takeWhile (fun s => run (mk s) == 0) = fs :=
      List.takeWhile_eq_self_iff.mpr (by simpa using hall)
    have hdw : fs.dropWhile (fun s => run (mk s) == 0) = [] :=
      List.dropWhile_eq_nil_iff.mpr (by simpa using hall)
    rw [htw, hdw] at hc
    simp only [List.take_nil, List.append_nil, List.mem_map] at hc
    obtain ⟨g, hg, rfl⟩ := hc
    simpa using List.all_eq_true.mp hall g hg
  · intro hc
    by_contra hall
    obtain ⟨g, _, hgr, hgc, _⟩ :=
      convertAll_fail run mk dn fs (Bool.eq_false_iff.mpr hall)
    exact hgr (hc _ hgc)

lemma convertAll_ok_mem (run : List String → Int) (mk : PyPath → List String)
    (dn : PyPath → String) (fs : List PyPath)
    (hall : fs.all (fun s => run (mk s) == 0) = true) :
    okLine ∈ (convertAll run mk dn fs).logs := by
  have hok : (convertLoop run mk dn fs).ok = true := by rw [convertLoop_ok]; exact hall
  simp [convertAll, hok]

lemma convertAll_fail_exists (run : List String → Int) (mk : PyPath → List String)
    (dn : PyPath → String) (fs : List PyPath)
    (h : ∃ c ∈ (convertAll run mk dn fs).cmds, run c ≠ 0) :
    ∃ g ∈ fs, run (mk g) ≠ 0 ∧
      logFailed (pathStr g) ∈ (convertAll run mk dn fs).logs := by
  obtain ⟨c, hc, hcr⟩ := h
  by_cases hall : fs.all (fun s => run (mk s) == 0) = true
  · exact absurd
      ((convertAll_ok_iff run mk dn fs).mp (convertAll_ok_mem run mk dn fs hall) c hc) hcr
  · obtain ⟨g, hg, hgr, _, hgl⟩ :=
      convertAll_fail run mk dn fs (Bool.eq_false_iff.mpr hall)
    exact ⟨g, hg, hgr, hgl⟩

/-! ## Claim theorems -/

/-- C1: starting a conversion runs one ffmpeg invocation per queued
file in list order on the worker; the launched invocations are exactly
the longest all-zero prefix plus, when one fails, that first failing
invocation and nothing afterwards; a nonzero exit logs the
conversion-failed message; and okLine is logged iff every launched
invocation exited with code zero.  Stated for both tabs' workers. -/
theorem c1_sequential_stop_on_failure (run : List String → Int) (ffmpeg : String)
    (af : List String) (vf outDir : String) (files : List PyPath) :
    ((musicConvert run ffmpeg af outDir files).cmds =
       ((files.takeWhile fun s => run (musicCmd ffmpeg af outDir s) == 0) ++
         (files.dropWhile fun s => run (musicCmd ffmpeg af outDir s) == 0).take 1).map
         (musicCmd ffmpeg af outDir)) ∧
    (okLine ∈ (musicConvert run ffmpeg af outDir files).logs ↔
       ∀ c ∈ (musicConvert run ffmpeg af outDir files).cmds, run c = 0) ∧
    ((∃ c ∈ (musicConvert run ffmpeg af outDir files).cmds, run c ≠ 0) →
       ∃ g ∈ files, run (musicCmd ffmpeg af outDir g) ≠ 0 ∧
         logFailed (pathStr g) ∈ (musicConvert run ffmpeg af outDir files).logs) ∧
    ((videoConvert run ffmpeg vf outDir files).cmds =
       ((files.takeWhile fun s => run (videoCmd ffmpeg vf outDir s) == 0) ++
         (files.dropWhile fun s => run (videoCmd ffmpeg vf outDir s) == 0).take 1).map
         (videoCmd ffmpeg vf outDir)) ∧
    (okLine ∈ (videoConvert run ffmpeg vf outDir files).logs ↔
       ∀ c ∈ (videoConvert run ffmpeg vf outDir files).cmds, run c = 0) ∧
    ((∃ c ∈ (videoConvert run ffmpeg vf outDir files).cmds, run c ≠ 0) →
       ∃ g ∈ files, run (videoCmd ffmpeg vf outDir g) ≠ 0 ∧
         logFailed (pathStr g) ∈ (videoConvert run ffmpeg vf outDir files).logs) :=
  ⟨convertAll_cmds run (musicCmd ffmpeg af outDir) _ files,
   convertAll_ok_iff run (musicCmd ffmpeg af outDir) _ files,
   convertAll_fail_exists run (musicCmd ffmpeg af outDir) _ files,
   convertAll_cmds run (videoCmd ffmpeg vf outDir) _ files,
   convertAll_ok_iff run (videoCmd ffmpeg vf outDir) _ files,
   convertAll_fail_exists run (videoCmd ffmpeg vf outDir) _ files⟩

/-- Witness for C1 at a concrete batch where the second of three files
fails: the first two invocations run, the third does not, the failure
line appears and okLine does not. -/
theorem c1_witness :
    ((musicConvert (fun c => if c.contains "b/b.mp3" then 1 else 0) "ffmpeg" [] "b"
        [⟨["b", "a.mp3"]⟩, ⟨["b", "b.mp3"]⟩, ⟨["b", "c.mp3"]⟩]).cmds =
      (([⟨["b", "a.mp3"]⟩, ⟨["b", "b.mp3"]⟩, ⟨["b", "c.mp3"]⟩].takeWhile
          fun s => (fun c => if c.contains "b/b.mp3" then (1 : Int) else 0)
            (musicCmd "ffmpeg" [] "b" s) == 0) ++
        ([⟨["b", "a.mp3"]⟩, ⟨["b", "b.mp3"]⟩, ⟨["b", "c.mp3"]⟩].dropWhile
          fun s => (fun c => if c.contains "b/b.mp3" then (1 : Int) else 0)
            (musicCmd "ffmpeg" [] "b" s) == 0).take 1).map
        (musicCmd "ffmpeg" [] "b")) ∧
    ¬ okLine ∈ (musicConvert (fun c => if c.contains "b/b.mp3" then 1 else 0) "ffmpeg" []
        "b" [⟨["b", "a.mp3"]⟩, ⟨["b", "b.mp3"]⟩, ⟨["b", "c.mp3"]⟩]).logs := by
  refine ⟨(c1_sequential_stop_on_failure (fun c => if c.contains "b/b.mp3" then 1 else 0)
    "ffmpeg" [] "" "b" [⟨["b", "a.mp3"]⟩, ⟨["b", "b.mp3"]⟩, ⟨["b", "c.mp3"]⟩]).1, ?_⟩
  rw [(c1_sequential_stop_on_failure (fun c => if c.contains "b/b.mp3" then 1 else 0)
    "ffmpeg" [] "" "b" [⟨["b", "a.mp3"]⟩, ⟨["b", "b.mp3"]⟩, ⟨["b", "c.mp3"]⟩]).2.1]
  decide

/-- C2: FFmpegProcess.run puts every stderr line, stripped, onto the
log queue in order and returns the wait status; an exception instead
appends one ERROR line after the lines already streamed and returns 1,
so the result is always a total (logs, integer exit code) pair. -/
theorem c2_run_streams_then_returns :
    (∀ lines code, runFF (normalRun lines code) = (lines.map pyStrip, code)) ∧
    (∀ lines msg,
      runFF (raisedRun lines msg) = (lines.map pyStrip ++ ["[ERROR] " ++ msg], 1)) :=
  ⟨runFF_normal, runFF_raised⟩

lemma joinOut_wav_ne_af (o st : String) : joinOut o (st ++ ".wav") ≠ "-af" := by
  intro h
  have hlen := congrArg String.length h
  simp only [joinOut, String.length_append] at hlen
  have h1 : (".wav" : String).length = 4 := rfl
  have h2 : ("/" : String).length = 1 := rfl
  have h3 : ("-af" : String).length = 3 := rfl
  omega

/-- C3: when the gain read from the slider has absolute value at least
0.05 dB, _af yields exactly the -af volume pair, which sits inside the
per-file conversion command; below the threshold no -af argument is in
the command; a failed float() read behaves as gain 0.0. -/
theorem c3_audio_gain (dbv : Option ℚ) (ffmpeg outDir : String) (src : PyPath)
    (hff : ffmpeg ≠ "-af") (hsrc : pathStr src ≠ "-af") :
    (afArgs none = []) ∧
    ((1 / 20 : ℚ) ≤ |dbv.getD 0| →
      afArgs dbv = ["-af", "volume=" ++ fmtDb (dbv.getD 0) ++ "dB"] ∧
      ∃ l1 l2, musicCmd ffmpeg (afArgs dbv) outDir src =
        l1 ++ ["-af", "volume=" ++ fmtDb (dbv.getD 0) ++ "dB"] ++ l2) ∧
    (|dbv.getD 0| < 1 / 20 →
      afArgs dbv = [] ∧ "-af" ∉ musicCmd ffmpeg (afArgs dbv) outDir src) := by
  refine ⟨by norm_num [afArgs], fun hge => ?_, fun hlt => ?_⟩
  · have haf : afArgs dbv = ["-af", "volume=" ++ fmtDb (dbv.getD 0) ++ "dB"] := by
      unfold afArgs
      rw [if_neg (not_lt.mpr hge)]
    refine ⟨haf, ?_⟩
    rw [haf]
    exact ⟨[ffmpeg, "-hide_banner", "-loglevel", "error", "-stats", "-y",
      "-i", pathStr src, "-ac", audioOutChannels, "-ar", audioOutRate,
      "-sample_fmt", audioOutSampleFmt, "-c:a", audioOutCodec],
      ["-f", "wav", joinOut outDir (stemOf src ++ ".wav")], rfl⟩
  · have haf : afArgs dbv = [] := by
      unfold afArgs
      rw [if_pos hlt]
    refine ⟨haf, ?_⟩
    rw [haf]
    intro hmem
    simp only [musicCmd, audioOutChannels, audioOutRate, audioOutSampleFmt,
      audioOutCodec, List.append_nil, List.mem_append, List.mem_cons,
      List.mem_singleton, List.not_mem_nil, or_false] at hmem
    rcases hmem with hmem | hmem
    · rcases hmem with h | h | h | h | h | h | h | h | h | h | h | h | h | h | h | h
      · exact hff h.symm
      all_goals first
        | exact absurd h (by decide)
        | exact hsrc h.symm
    · rcases hmem with h | h | h
      · exact absurd h (by decide)
      · exact absurd h (by decide)
      · exact joinOut_wav_ne_af outDir (stemOf src) h.symm

/-- Witness for C3 at gain 3.0 dB with concrete paths. -/
theorem c3_witness :
    ("ffmpeg" : String) ≠ "-af" ∧ pathStr ⟨["a.mp3"]⟩ ≠ "-af" ∧
      (afArgs (some 3) = ["-af", "volume=" ++ fmtDb ((some (3 : ℚ)).getD 0) ++ "dB"] ∧
        ∃ l1 l2, musicCmd "ffmpeg" (afArgs (some 3)) "out" ⟨["a.mp3"]⟩ =
          l1 ++ ["-af", "volume=" ++ fmtDb ((some (3 : ℚ)).getD 0) ++ "dB"] ++ l2) :=
  ⟨by decide, by decide,
    (c3_audio_gain (some 3) "ffmpeg" "out" ⟨["a.mp3"]⟩ (by decide) (by decide)).2.1
      (by norm_num)⟩

/-- C4: the filter-graph core for each scaling mode: a direct 340x210
scale for stretch, an even-truncated max-ratio scale plus crop for
cover, an even-truncated min-ratio scale plus centered pad for contain,
and a direct scale to the sanitized custom size for custom; the
conversion command appends fps=12,format=pal8 to the core and the
preview command appends format=rgb24. -/
theorem c4_vf_modes (wv hv : String) :
    vfCore "stretch" wv hv = "scale=340:210:flags=lanczos,setsar=1" ∧
    vfCore "cover" wv hv =
      "scale=trunc(iw*max(340/iw\\,210/ih)/2)*2:trunc(ih*max(340/iw\\,210/ih)/2)*2:flags=lanczos,setsar=1,crop=340:210" ∧
    vfCore "contain" wv hv =
      "scale=trunc(iw*min(340/iw\\,210/ih)/2)*2:trunc(ih*min(340/iw\\,210/ih)/2)*2:flags=lanczos,setsar=1,pad=340:210:(ow-iw)/2:(oh-ih)/2" ∧
    vfCore "custom" wv hv =
      "scale=" ++ toString (getParse wv targetW) ++ ":" ++ toString (getParse hv targetH)
        ++ ":flags=lanczos,setsar=1" ∧
    (∀ mode, vfConvert mode wv hv = vfCore mode wv hv ++ ",fps=12,format=pal8") ∧
    (∀ mode, vfPreview mode wv hv = vfCore mode wv hv ++ ",format=rgb24") ∧
    (∀ mode, pyLower mode ≠ "custom" → pyIn "stretch" (pyLower mode) = false →
      pyIn "cover" (pyLower mode) = false → pyIn "fill" (pyLower mode) = false →
      vfCore mode wv hv =
        "scale=trunc(iw*min(340/iw\\,210/ih)/2)*2:trunc(ih*min(340/iw\\,210/ih)/2)*2:flags=lanczos,setsar=1,pad=340:210:(ow-iw)/2:(oh-ih)/2") := by
  refine ⟨rfl, rfl, rfl, rfl, fun mode => ?_, fun mode => rfl,
    fun mode h1 h2 h3 h4 => ?_⟩
  · show vfCore mode wv hv ++ ",fps=" ++ toString targetFps ++ ",format=pal8" = _
    rw [String.append_assoc, String.append_assoc]
    rfl
  · simp [vfCore, h1, h2, h3, h4]
    rfl

lemma getParse_eq_peekParse (v : String) (fb : Int) : getParse v fb = peekParse v fb := by
  unfold getParse peekParse
  rcases pyInt? v with _ | n
  · rfl
  · simp only
    split
    · rfl
    · split <;> omega

/-- C10: _get_custom_size and _peek_custom_size agree, always return a
positive even pair given a positive even default, map non-numeric,
zero, or negative entries to the default, reduce an odd n to n - 1
(default when that is 0), keep even positive values, and the get
variant writes the sanitized pair back into the entry fields. -/
theorem c10_custom_size_sanitization (wv hv v : String) (fb n : Int) :
    getParse v fb = peekParse v fb ∧
    (getCustomSize wv hv).1 = peekCustomSize wv hv ∧
    (getCustomSize wv hv).2 =
      (toString (peekCustomSize wv hv).1, toString (peekCustomSize wv hv).2) ∧
    (Even fb → 0 < fb → Even (getParse v fb) ∧ 0 < getParse v fb) ∧
    (pyInt? v = none → getParse v fb = fb) ∧
    (pyInt? v = some n → n ≤ 0 → getParse v fb = fb) ∧
    (pyInt? v = some n → 0 < n → n % 2 = 1 →
      getParse v fb = if n = 1 then fb else n - 1) ∧
    (pyInt? v = some n → 0 < n → n % 2 = 0 → getParse v fb = n) := by
  refine ⟨getParse_eq_peekParse v fb, ?_, ?_, ?_, ?_, ?_, ?_, ?_⟩
  · simp only [getCustomSize, peekCustomSize, getParse_eq_peekParse]
  · simp only [getCustomSize, peekCustomSize, getParse_eq_peekParse]
  · intro hev hpos
    unfold getParse
    rcases hv2 : pyInt? v with _ | m
    · exact ⟨hev, hpos⟩
    · simp only
      split
      · exact ⟨hev, hpos⟩
      · rename_i hm
        split
        · rename_i hodd
          split
          · exact ⟨hev, hpos⟩
          · rename_i hle
            constructor
            · rw [Int.even_iff]
              omega
            · omega
        · rename_i hodd
          constructor
          · rw [Int.even_iff]
            omega
          · omega
  · intro h0
    unfold getParse
    rw [h0]
  · intro h0 hle
    unfold getParse
    rw [h0]
    simp only [if_pos hle]
  · intro h0 hpos hodd
    unfold getParse
    rw [h0]
    simp only [if_neg (by omega : ¬ n ≤ 0), if_pos hodd]
    split
    · rename_i hle
      rw [if_pos (by omega)]
    · rename_i hle
      rw [if_neg (by omega)]
  · intro h0 hpos hev
    unfold getParse
    rw [h0]
    simp only [if_neg (by omega : ¬ n ≤ 0), if_neg (by omega : ¬ n % 2 = 1)]

/-- Witness for C10 at the odd entry 341: both parses sanitize it to
340, and the parsed-value hypotheses hold concretely. -/
theorem c10_witness :
    pyInt? "341" = some 341 ∧ (0 : Int) < 341 ∧ (341 : Int) % 2 = 1 ∧
      getParse "341" 340 = if (341 : Int) = 1 then 340 else 341 - 1 :=
  ⟨by decide, by decide, by decide,
    (c10_custom_size_sanitization "341" "210" "341" 340 341).2.2.2.2.2.2.1
      (by decide) (by decide) (by decide)⟩

/-- C7 counterexample: the claim that only the background conversion
worker puts lines onto a tab's log queue is false; on both queues the
UI thread also puts (the startup notes in PipMediaApp.__init__, warning
and error lines from button handlers, and the end-of-conversion OK
line, which is put from an after callback on the UI thread). -/
theorem c7_counterexample :
    ¬ (∀ site ∈ musicLogSites, site.isPut = true → site.thr = Thr.convWorker) ∧
    ¬ (∀ site ∈ videoLogSites, site.isPut = true → site.thr = Thr.convWorker) := by
  decide

/-- C7 amended: each tab's queue has exactly one consumer, the tab's
drain loop on the UI thread; producers are the UI thread together with
the tab's background workers (the conversion worker, and for the video
tab also preview build threads). -/
theorem c7_single_consumer_many_producers :
    (musicLogSites.filter (fun site => !site.isPut)).map LogSite.fn =
      ["MusicTab._drain_log"] ∧
    (videoLogSites.filter (fun site => !site.isPut)).map LogSite.fn =
      ["VideoTab._drain_log"] ∧
    (∀ site ∈ musicLogSites, !site.isPut → site.thr = Thr.ui) ∧
    (∀ site ∈ musicLogSites, site.isPut = true →
      site.thr = Thr.ui ∨ site.thr = Thr.convWorker) ∧
    (∀ site ∈ videoLogSites, site.isPut = true →
      site.thr = Thr.ui ∨ site.thr = Thr.convWorker ∨ site.thr = Thr.prevWorker) := by
  decide

lemma listSwap_perm (l : List PyPath) (i j : Nat) : (listSwap l i j).Perm l := by
  unfold listSwap
  split
  · rename_i h
    obtain ⟨h1, h2⟩ := h
    rw [List.perm_iff_count]
    intro a
    have hjs : j < (l.set i (l.get ⟨j, h2⟩)).length := by
      rw [List.length_set]
      exact h2
    rw [List.count_set _ _ _ _ hjs, List.count_set _ _ _ _ h1]
    have hset : (l.set i (l.get ⟨j, h2⟩))[j] = l[j] := by
      rw [List.getElem_set]
      split
      · rename_i hij
        show l[j] = l[j]
        rfl
      · rfl
    rw [hset]
    have hgj : (l.get ⟨j, h2⟩ : PyPath) = l[j] := rfl
    have hgi : (l.get ⟨i, h1⟩ : PyPath) = l[i] := rfl
    rw [hgj, hgi]
    simp only [beq_iff_eq]
    have hci : l[i] = a → 1 ≤ l.count a := fun hia =>
      List.count_pos_iff.mpr (hia ▸ List.getElem_mem h1)
    have hcj : l[j] = a → 1 ≤ l.count a := fun hja =>
      List.count_pos_iff.mpr (hja ▸ List.getElem_mem h2)
    by_cases hia : l[i] = a
    · have hb := hci hia
      by_cases hja : l[j] = a
      · simp only [if_pos hia, if_pos hja]
        omega
      · simp only [if_pos hia, if_neg hja]
        omega
    · by_cases hja : l[j] = a
      · have hb := hcj hja
        simp only [if_neg hia, if_pos hja]
        omega
      · simp only [if_neg hia, if_neg hja]
        omega
  · exact List.Perm.refl l

lemma foldl_perm (step : List PyPath → Nat → List PyPath)
    (hstep : ∀ acc i, (step acc i).Perm acc) :
    ∀ (sel : List Nat) (l : List PyPath), (sel.foldl step l).Perm l := by
  intro sel
  induction sel with
  | nil => exact fun l => List.Perm.refl l
  | cons i rest ih =>
    intro l
    exact (ih (step l i)).trans (hstep l i)

lemma moveFiles_perm (sel : List Nat) (delta : Int) (l : List PyPath) :
    (moveFiles sel delta l).Perm l := by
  unfold moveFiles
  split
  · refine foldl_perm _ ?_ sel l
    intro acc i
    split
    · exact listSwap_perm acc i _
    · exact List.Perm.refl acc
  · refine foldl_perm _ ?_ sel.reverse l
    intro acc i
    split
    · exact listSwap_perm acc i _
    · exact List.Perm.refl acc

/-- C9 counterexample: with both items of a two-element list selected
and moved up, the loop swaps them, so the boundary element that was
first does not stay in place (the multiset is still preserved). -/
theorem c9_counterexample :
    moveFiles [0, 1] (-1) [⟨["a"]⟩, ⟨["b"]⟩] = [⟨["b"]⟩, ⟨["a"]⟩] ∧
    (⟨["a"]⟩ : PyPath) ≠ ⟨["b"]⟩ := by
  constructor
  · rfl
  · decide

/-- C9 amended: move_selected only swaps pairs, so the queued multiset
and length are unchanged for every selection and direction; a boundary
element stays in place when it is the sole selected item (first item
moved up, last item moved down), though a multi-item selection touching
the boundary can still displace the boundary element. -/
theorem c9_move_is_permutation (sel : List Nat) (delta : Int) (l : List PyPath) :
    (moveFiles sel delta l).Perm l ∧
    (moveFiles sel delta l).length = l.length ∧
    moveFiles [0] (-1) l = l ∧
    moveFiles [l.length - 1] 1 l = l := by
  refine ⟨moveFiles_perm sel delta l, (moveFiles_perm sel delta l).length_eq, ?_, ?_⟩
  · norm_num [moveFiles, List.foldl_cons, List.foldl_nil]
  · have hc : ¬ (((l.length - 1 : Nat) : Int) + 1 < (l.length : Int)) := by omega
    norm_num [moveFiles, List.foldl_cons, List.foldl_nil, hc]

lemma map_eraseIdx_comm (f : PyPath → String) :
    ∀ (l : List PyPath) (i : Nat), (l.eraseIdx i).map f = (l.map f).eraseIdx i := by
  intro l
  induction l with
  | nil => intro i; rfl
  | cons a rest ih =>
    intro i
    cases i with
    | zero => rfl
    | succ k =>
      simp only [List.eraseIdx_cons_succ, List.map_cons, ih]

lemma musicAdd_eq_videoAdd (norm : PyPath → String) (extOk : PyPath → Bool) :
    ∀ (chosen : List PyPath) (s : TabState),
      musicAddFiles norm extOk s chosen = videoAddFiles norm extOk s chosen := by
  intro chosen
  induction chosen with
  | nil =>
    intro s
    simp [musicAddFiles, pickFiles, videoAddFiles]
  | cons p rest ih =>
    intro s
    by_cases hex : extOk p
    · by_cases hk : norm p ∈ s.known
      · have h1 : musicAddFiles norm extOk s (p :: rest) =
            musicAddFiles norm extOk s rest := by
          simp [musicAddFiles, pickFiles, hex, hk]
        have h2 : videoAddFiles norm extOk s (p :: rest) =
            videoAddFiles norm extOk s rest := by
          simp [videoAddFiles, hex, hk]
        rw [h1, h2, ih]
      · have h1 : musicAddFiles norm extOk s (p :: rest) =
            musicAddFiles norm extOk ⟨s.files ++ [p], insert (norm p) s.known⟩ rest := by
          simp [musicAddFiles, pickFiles, hex, hk]
        have h2 : videoAddFiles norm extOk s (p :: rest) =
            videoAddFiles norm extOk ⟨s.files ++ [p], insert (norm p) s.known⟩ rest := by
          simp [videoAddFiles, hex, hk]
        rw [h1, h2, ih]
    · have h1 : musicAddFiles norm extOk s (p :: rest) =
          musicAddFiles norm extOk s rest := by
        simp [musicAddFiles, pickFiles, hex]
      have h2 : videoAddFiles norm extOk s (p :: rest) =
          videoAddFiles norm extOk s rest := by
        simp [videoAddFiles, hex]
      rw [h1, h2, ih]

lemma videoAdd_files_eq_claim (norm : PyPath → String) (extOk : PyPath → Bool) :
    ∀ (chosen : List PyPath) (s : TabState),
      s.known = (s.files.map norm).toFinset →
      (videoAddFiles norm extOk s chosen).files = claimAddSpec norm extOk s.files chosen := by
  intro chosen
  induction chosen with
  | nil => intro s _; rfl
  | cons p rest ih =>
    intro s hs
    by_cases hex : extOk p
    · by_cases hk : norm p ∈ s.known
      · have hk2 : norm p ∈ s.files.map norm := by
          rw [hs] at hk
          exact List.mem_toFinset.mp hk
        have h2 : videoAddFiles norm extOk s (p :: rest) =
            videoAddFiles norm extOk s rest := by
          simp [videoAddFiles, hex, hk]
        have h3 : claimAddSpec norm extOk s.files (p :: rest) =
            claimAddSpec norm extOk s.files rest := by
          simp [claimAddSpec, hk2]
        rw [h2, h3]
        exact ih s hs
      · have hk2 : norm p ∉ s.files.map norm := by
          rw [hs] at hk
          exact fun hm => hk (List.mem_toFinset.mpr hm)
        have h2 : videoAddFiles norm extOk s (p :: rest) =
            videoAddFiles norm extOk ⟨s.files ++ [p], insert (norm p) s.known⟩ rest := by
          simp [videoAddFiles, hex, hk]
        have h3 : claimAddSpec norm extOk s.files (p :: rest) =
            claimAddSpec norm extOk (s.files ++ [p]) rest := by
          simp [claimAddSpec, hex, hk2]
        rw [h2, h3]
        refine ih ⟨s.files ++ [p], insert (norm p) s.known⟩ ?_
        show insert (norm p) s.known = ((s.files ++ [p]).map norm).toFinset
        rw [hs]
        ext x
        simp [or_comm]
    · have h2 : videoAddFiles norm extOk s (p :: rest) =
          videoAddFiles norm extOk s rest := by
        simp [videoAddFiles, hex]
      have h3 : claimAddSpec norm extOk s.files (p :: rest) =
          claimAddSpec norm extOk s.files rest := by
        simp [claimAddSpec, hex]
      rw [h2, h3]
      exact ih s hs

/-- C6: for each tab, add_files appends to the queue exactly the chosen
paths, in order, whose extension is in the tab's recognised list and
whose normalized path is not already that of a queued entry; everything
else is skipped. -/
theorem c6_add_files_filters_and_dedups (norm : PyPath → String) (s : TabState)
    (chosen : List PyPath) (hknown : s.known = (s.files.map norm).toFinset) :
    (musicAddFiles norm isAudio s chosen).files =
      claimAddSpec norm isAudio s.files chosen ∧
    (videoAddFiles norm isVideo s chosen).files =
      claimAddSpec norm isVideo s.files chosen := by
  constructor
  · rw [musicAdd_eq_videoAdd]
    exact videoAdd_files_eq_claim norm isAudio chosen s hknown
  · exact videoAdd_files_eq_claim norm isVideo chosen s hknown

/-- Witness for C6 on a concrete batch holding a duplicate and a
non-audio file: only the first copy of the audio file is appended. -/
theorem c6_witness :
    ((⟨[], ∅⟩ : TabState).known = (((⟨[], ∅⟩ : TabState).files.map pathStr).toFinset)) ∧
    (musicAddFiles pathStr isAudio ⟨[], ∅⟩
        [⟨["a.mp3"]⟩, ⟨["a.mp3"]⟩, ⟨["b.txt"]⟩]).files =
      claimAddSpec pathStr isAudio ([] : List PyPath)
        [⟨["a.mp3"]⟩, ⟨["a.mp3"]⟩, ⟨["b.txt"]⟩] :=
  ⟨rfl,
    (c6_add_files_filters_and_dedups pathStr ⟨[], ∅⟩
      [⟨["a.mp3"]⟩, ⟨["a.mp3"]⟩, ⟨["b.txt"]⟩] rfl).1⟩

lemma videoAdd_inv (norm : PyPath → String) (extOk : PyPath → Bool) :
    ∀ (chosen : List PyPath) (s : TabState),
      tabInv norm s → tabInv norm (videoAddFiles norm extOk s chosen) := by
  intro chosen
  induction chosen with
  | nil => intro s hs; exact hs
  | cons p rest ih =>
    intro s hs
    by_cases hex : extOk p
    · by_cases hk : norm p ∈ s.known
      · have h2 : videoAddFiles norm extOk s (p :: rest) =
            videoAddFiles norm extOk s rest := by
          simp [videoAddFiles, hex, hk]
        rw [h2]
        exact ih s hs
      · have h2 : videoAddFiles norm extOk s (p :: rest) =
            videoAddFiles norm extOk ⟨s.files ++ [p], insert (norm p) s.known⟩ rest := by
          simp [videoAddFiles, hex, hk]
        rw [h2]
        refine ih _ ⟨?_, ?_⟩
        · show insert (norm p) s.known = ((s.files ++ [p]).map norm).toFinset
          rw [hs.1]
          ext x
          simp [or_comm]
        · show ((s.files ++ [p]).map norm).Nodup
          have hk2 : norm p ∉ s.files.map norm := by
            rw [hs.1] at hk
            exact fun hm => hk (List.mem_toFinset.mpr hm)
          simp only [List.map_append, List.map_cons, List.map_nil]
          rw [List.nodup_append]
          exact ⟨hs.2, List.nodup_singleton _, by simpa using hk2⟩
    · have h2 : videoAddFiles norm extOk s (p :: rest) =
          videoAddFiles norm extOk s rest := by
        simp [videoAddFiles, hex]
      rw [h2]
      exact ih s hs

lemma removeStep_inv (norm : PyPath → String) (s : TabState) (idx : Nat)
    (hs : tabInv norm s) : tabInv norm (removeStep norm s idx) := by
  unfold removeStep
  split
  · rename_i h
    have hlen : idx < (s.files.map norm).length := by
      rw [List.length_map]
      exact h
    have hkey : norm (s.files.get ⟨idx, h⟩) = (s.files.map norm)[idx] := by
      simp
    constructor
    · show s.known.erase (norm (s.files.get ⟨idx, h⟩)) =
        ((s.files.eraseIdx idx).map norm).toFinset
      rw [map_eraseIdx_comm, hs.1, hkey]
      rw [← hs.2.erase_getElem idx hlen]
      ext x
      rw [List.mem_toFinset, hs.2.mem_erase_iff, Finset.mem_erase, List.mem_toFinset]
    · show ((s.files.eraseIdx idx).map norm).Nodup
      rw [map_eraseIdx_comm]
      exact hs.2.sublist (List.eraseIdx_sublist _ idx)
  · exact hs

lemma removeSelected_inv (norm : PyPath → String) (s : TabState) (sel : List Nat)
    (hs : tabInv norm s) : tabInv norm (removeSelected norm s sel) := by
  unfold removeSelected
  generalize sel.reverse = order
  induction order generalizing s with
  | nil => exact hs
  | cons i rest ih =>
    exact ih (removeStep norm s i) (removeStep_inv norm s i hs)

lemma moveSelected_inv (norm : PyPath → String) (s : TabState) (sel : List Nat)
    (delta : Int) (hs : tabInv norm s) : tabInv norm (moveSelected s sel delta) := by
  have hp : (moveFiles sel delta s.files).Perm s.files := moveFiles_perm sel delta s.files
  have hpm : ((moveFiles sel delta s.files).map norm).Perm (s.files.map norm) :=
    hp.map norm
  constructor
  · show s.known = ((moveFiles sel delta s.files).map norm).toFinset
    rw [hs.1]
    ext x
    rw [List.mem_toFinset, List.mem_toFinset]
    exact hpm.mem_iff.symm
  · exact hpm.symm.nodup hs.2

/-- C8: in both tabs the de-duplication invariant is preserved by
add_files, remove_selected, clear_list, and move_selected: _known_paths
is exactly the set of normalized paths of the queued entries, and those
keys are pairwise distinct, so the queue never holds two entries with
the same normalized path. -/
theorem c8_known_paths_invariant (norm : PyPath → String) (extOk : PyPath → Bool)
    (s : TabState) (chosen : List PyPath) (sel : List Nat) (delta : Int)
    (hinv : tabInv norm s) :
    tabInv norm (musicAddFiles norm extOk s chosen) ∧
    tabInv norm (videoAddFiles norm extOk s chosen) ∧
    tabInv norm (removeSelected norm s sel) ∧
    tabInv norm (clearList s) ∧
    tabInv norm (moveSelected s sel delta) ∧
    (s.files.map norm).Nodup := by
  refine ⟨?_, videoAdd_inv norm extOk chosen s hinv,
    removeSelected_inv norm s sel hinv, ⟨by simp [clearList], by simp [clearList]⟩,
    moveSelected_inv norm s sel delta hinv, hinv.2⟩
  rw [musicAdd_eq_videoAdd]
  exact videoAdd_inv norm extOk chosen s hinv

/-- Witness for C8 from the empty state through an add. -/
theorem c8_witness :
    tabInv pathStr (⟨[], ∅⟩ : TabState) ∧
    tabInv pathStr (musicAddFiles pathStr isAudio ⟨[], ∅⟩ [⟨["a.mp3"]⟩, ⟨["a.mp3"]⟩]) :=
  ⟨⟨rfl, List.nodup_nil⟩,
    (c8_known_paths_invariant pathStr isAudio ⟨[], ∅⟩ [⟨["a.mp3"]⟩, ⟨["a.mp3"]⟩] [] 1
      ⟨rfl, List.nodup_nil⟩).1⟩

lemma schedulePreview_custom (s : PreviewState) (sel : Option PyPath) (d : Bool)
    (hm : s.mode = "custom") : schedulePreview s sel d = s := by
  simp [schedulePreview, hm]

lemma schedulePreview_some (s : PreviewState) (f : PyPath) (d : Bool)
    (hinv : previewInv s) (hm : s.mode ≠ "custom") :
    schedulePreview s (some f) d =
      { s with
        target := some f
        timers := [(s.nextId, (if d then 250 else 0), f)]
        afterId := some s.nextId
        nextId := s.nextId + 1 } := by
  rcases ha : s.afterId with _ | tid
  · have ht : s.timers = [] := by
      cases ht : s.timers with
      | nil => rfl
      | cons t rest =>
        exfalso
        have hmem := hinv.1 t (ht ▸ List.mem_cons_self t rest)
        rw [ha] at hmem
        exact Option.noConfusion hmem
    simp [schedulePreview, hm, ha, ht]
  · simp only [schedulePreview, hm, ha, if_neg hm]
    simp
    intro a a1 b hmem
    have hmem2 := hinv.1 (a, a1, b) hmem
    rw [ha] at hmem2
    exact (Option.some_inj.mp hmem2).symm

lemma schedulePreview_inv (s : PreviewState) (sel : Option PyPath) (d : Bool)
    (hinv : previewInv s) : previewInv (schedulePreview s sel d) := by
  by_cases hm : s.mode = "custom"
  · rw [schedulePreview_custom s sel d hm]
    exact hinv
  · cases sel with
    | none =>
      have hn : schedulePreview s none d =
          { s with canvas := CanvasView.text "No preview" } := by
        simp [schedulePreview, hm]
      rw [hn]
      exact hinv
    | some f =>
      rw [schedulePreview_some s f d hinv hm]
      constructor
      · intro t ht
        simp only [List.mem_singleton] at ht
        rw [ht]
      · simp

lemma fireTimer_inv (s : PreviewState) (tid : Nat) (hinv : previewInv s) :
    previewInv (fireTimer s tid) := by
  unfold fireTimer
  split
  · rename_i t hf
    constructor
    · intro u hu
      exfalso
      have hu2 := List.mem_filter.mp hu
      have htt : t ∈ s.timers := List.mem_of_find?_eq_some hf
      have htp : t.1 = tid := by
        have := List.find?_some hf
        simpa using this
      have h1 := hinv.1 u hu2.1
      have h2 := hinv.1 t htt
      have h3 : u.1 = t.1 := Option.some_inj.mp (h1.symm.trans h2)
      have h4 : u.1 = tid := h3.trans htp
      simpa [h4] using hu2.2
    · calc (s.timers.filter (fun u => u.1 ≠ tid)).length ≤ s.timers.length :=
            List.length_filter_le _ _
        _ ≤ 1 := hinv.2
  · exact hinv

lemma buildFinish_inv (s : PreviewState) (p : PyPath) (b : Bool)
    (hinv : previewInv s) : previewInv (buildFinish s p b) := by
  unfold buildFinish
  split
  · exact hinv
  · split
    · exact hinv
    · split
      · exact hinv
      · exact hinv

lemma schedule_chain (fs : List PyPath) :
    ∀ (s : PreviewState), previewInv s → s.mode ≠ "custom" →
      (fs.foldl (fun st g => schedulePreview st (some g) true) s).started = s.started ∧
      (fs.foldl (fun st g => schedulePreview st (some g) true) s).mode = s.mode ∧
      previewInv (fs.foldl (fun st g => schedulePreview st (some g) true) s) := by
  induction fs with
  | nil => exact fun s hinv _ => ⟨rfl, rfl, hinv⟩
  | cons g rest ih =>
    intro s hinv hm
    have hstep := schedulePreview_some s g true hinv hm
    have hinv2 := schedulePreview_inv s (some g) true hinv
    have hm2 : (schedulePreview s (some g) true).mode ≠ "custom" := by
      rw [hstep]
      exact hm
    have hst : (schedulePreview s (some g) true).started = s.started := by
      rw [hstep]
    have hmo : (schedulePreview s (some g) true).mode = s.mode := by
      rw [hstep]
    obtain ⟨h1, h2, h3⟩ := ih (schedulePreview s (some g) true) hinv2 hm2
    exact ⟨by rw [List.foldl_cons, h1, hst], by rw [List.foldl_cons, h2, hmo], h3⟩

/-- Witness for C4 for the default branch, at the UI's contain mode. -/
theorem c4_witness :
    pyLower "contain" ≠ "custom" ∧ pyIn "stretch" (pyLower "contain") = false ∧
    pyIn "cover" (pyLower "contain") = false ∧ pyIn "fill" (pyLower "contain") = false ∧
    vfCore "contain" "340" "210" =
      "scale=trunc(iw*min(340/iw\\,210/ih)/2)*2:trunc(ih*min(340/iw\\,210/ih)/2)*2:flags=lanczos,setsar=1,pad=340:210:(ow-iw)/2:(oh-ih)/2" :=
  ⟨by decide, by decide, by decide, by decide,
    (c4_vf_modes "340" "210").2.2.2.2.2.2 "contain"
      (by decide) (by decide) (by decide) (by decide)⟩

/-- C5: a selection-triggered (debounced) preview request records the
new target and schedules its build with a 250 ms delay after cancelling
the previously pending timer, so the timer queue never holds more than
one pending build (an invariant preserved by scheduling, firing, and
build completion); a burst of selection changes leaves exactly one
pending timer, for the last selected file, and firing it starts a build
for that file only; a successfully built thumbnail is drawn onto the
canvas only when its source is still the recorded preview target. -/
theorem c5_preview_debounce (s : PreviewState) (f src : PyPath) (fs : List PyPath)
    (hinv : previewInv s) (hm : s.mode ≠ "custom") :
    ((schedulePreview s (some f) true).timers = [(s.nextId, 250, f)] ∧
     (schedulePreview s (some f) true).target = some f) ∧
    (∀ sel d, previewInv (schedulePreview s sel d)) ∧
    (∀ tid, previewInv (fireTimer s tid)) ∧
    (∀ p b, previewInv (buildFinish s p b)) ∧
    (∃ tid,
      ((fs ++ [f]).foldl (fun st g => schedulePreview st (some g) true) s).started =
        s.started ∧
      ((fs ++ [f]).foldl (fun st g => schedulePreview st (some g) true) s).timers =
        [(tid, 250, f)] ∧
      (fireTimer ((fs ++ [f]).foldl (fun st g => schedulePreview st (some g) true) s)
         tid).started = s.started ++ [f] ∧
      (fireTimer ((fs ++ [f]).foldl (fun st g => schedulePreview st (some g) true) s)
         tid).timers = []) ∧
    (s.target = some src → (buildFinish s src true).canvas = CanvasView.image src) ∧
    (s.target ≠ some src → (buildFinish s src true).canvas = s.canvas) := by
  refine ⟨?_, fun sel d => schedulePreview_inv s sel d hinv,
    fun tid => fireTimer_inv s tid hinv,
    fun p b => buildFinish_inv s p b hinv, ?_, ?_, ?_⟩
  · rw [schedulePreview_some s f true hinv hm]
    exact ⟨rfl, rfl⟩
  · obtain ⟨hst, hmo, hiv⟩ := schedule_chain fs s hinv hm
    have hm2 : (fs.foldl (fun st g => schedulePreview st (some g) true) s).mode ≠
        "custom" := by
      rw [hmo]
      exact hm
    refine ⟨(fs.foldl (fun st g => schedulePreview st (some g) true) s).nextId,
      ?_, ?_, ?_, ?_⟩
    · rw [List.foldl_append, List.foldl_cons, List.foldl_nil,
        schedulePreview_some _ f true hiv hm2]
      exact hst
    · rw [List.foldl_append, List.foldl_cons, List.foldl_nil,
        schedulePreview_some _ f true hiv hm2]
      rfl
    · rw [List.foldl_append, List.foldl_cons, List.foldl_nil,
        schedulePreview_some _ f true hiv hm2]
      simp [fireTimer, List.find?, hst]
    · rw [List.foldl_append, List.foldl_cons, List.foldl_nil,
        schedulePreview_some _ f true hiv hm2]
      simp [fireTimer, List.find?]
  · intro htgt
    simp [buildFinish, hm, htgt]
  · intro htgt
    simp [buildFinish, hm, htgt]

/-- Witness for C5 from a fresh preview state (contain mode, no pending
timer) with a two-element selection burst. -/
theorem c5_witness :
    previewInv ⟨"contain", [], none, 0, none, [], CanvasView.text "No preview"⟩ ∧
    (⟨"contain", [], none, 0, none, [], CanvasView.text "No preview"⟩ :
      PreviewState).mode ≠ "custom" ∧
    ((schedulePreview ⟨"contain", [], none, 0, none, [], CanvasView.text "No preview"⟩
        (some ⟨["v.mp4"]⟩) true).timers = [(0, 250, ⟨["v.mp4"]⟩)] ∧
     (schedulePreview ⟨"contain", [], none, 0, none, [], CanvasView.text "No preview"⟩
        (some ⟨["v.mp4"]⟩) true).target = some ⟨["v.mp4"]⟩) :=
  ⟨⟨fun t ht => absurd ht (List.not_mem_nil t), Nat.zero_le 1⟩, by decide,
    (c5_preview_debounce ⟨"contain", [], none, 0, none, [], CanvasView.text "No preview"⟩
      ⟨["v.mp4"]⟩ ⟨["v.mp4"]⟩ [⟨["w.mp4"]⟩]
      ⟨fun t ht => absurd ht (List.not_mem_nil t), Nat.zero_le 1⟩ (by decide)).1⟩

end PipMedia
